import Mathlib

/-!
# Verification of the logkit configuration and logging layer

Shallow embedding of the logkit repository (a thin configuration and
formatting layer over Go's `log/slog`).  The Go sources are translated
directly:

* dynamically typed configuration values (`any`) become the inductive
  `GoVal`, with `reflect.Kind` modelled by `GoKind`;
* the external `time` package is an out-of-scope collaborator: its
  `Format` and `Parse` operations are passed as explicit function
  parameters (`Fm`, `Ps`) over abstract instants modelled as `Int`
  (the reference instant 2006-01-02 15:04:05 UTC is its Unix second
  count `1136214245`);
* Go's in-place mutation of `*Config` and `*validationError` becomes
  explicit state passing; fallible options return `Except String`;
* `slog.Attr` is a `String × Value` pair; `slog.GroupValue` nests lists
  of such pairs;
* the two process effects of `Logger.Fatal` (forwarding the record,
  then `os.Exit(1)`) are modelled as an ordered event trace.
-/

namespace Logkit

/-- Primitive kind of a dynamically typed Go value (`reflect.Kind`,
restricted to the kinds that can reach the configuration map). -/
inductive GoKind where
  | kString
  | kInt
  | kBool
  | kOther
deriving DecidableEq, Repr

/-- A dynamically typed Go value (`any`) as stored in the configuration
map passed to `WithConfig`. -/
inductive GoVal where
  | str (s : String)
  | int (i : Int)
  | bool (b : Bool)
  | other
deriving DecidableEq, Repr

/-- `reflect.TypeOf(v).Kind()` for a configuration value. -/
def GoVal.kind : GoVal → GoKind
  | .str _ => .kString
  | .int _ => .kInt
  | .bool _ => .kBool
  | .other => .kOther

/-- A raw configuration mapping (`map[string]any`); lookup-only, which is
all the source ever does with it. -/
def ConfigMap : Type := String → Option GoVal

/-- `validationError` (src/validators.go): accumulator of invalid-type and
invalid-value field names. -/
structure validationError where
  invalidTypes : List String
  invalidValues : List String
deriving DecidableEq, Repr

/-- `validationError.Error` (src/validators.go lines 15-27): the message
holds an `invalid_type=` part and/or an `invalid_value=` part, the second
prefixed by `", "` exactly when the first was written (the source's
`b.Len() > 0` test holds iff `invalidTypes` is non-empty, since the first
`WriteString` happens exactly then and always writes a non-empty string). -/
def validationError.Error (e : validationError) : String :=
  let b := if e.invalidTypes.isEmpty then ""
           else "invalid_type=" ++ String.intercalate "," e.invalidTypes
  if e.invalidValues.isEmpty then b
  else (if e.invalidTypes.isEmpty then "" else b ++ ", ")
       ++ "invalid_value=" ++ String.intercalate "," e.invalidValues

/-- `validationError.hasErrors`. -/
def validationError.hasErrors (e : validationError) : Bool :=
  !e.invalidTypes.isEmpty || !e.invalidValues.isEmpty

/-! ## Level tables and defaults (src/unnamed/part_005, src/defaults.go) -/

def LevelTrace : Int := -8
def LevelDebug : Int := -4
def LevelVerbose : Int := -2
def LevelInfo : Int := 0
def LevelWarn : Int := 4
def LevelError : Int := 8
def LevelFatal : Int := 16

/-- `levelNames`: map from level values to their uppercase names. -/
def levelNames (l : Int) : Option String :=
  if l = LevelTrace then some "TRACE"
  else if l = LevelDebug then some "DEBUG"
  else if l = LevelVerbose then some "VERBOSE"
  else if l = LevelInfo then some "INFO"
  else if l = LevelWarn then some "WARN"
  else if l = LevelError then some "ERROR"
  else if l = LevelFatal then some "FATAL"
  else none

/-- `levelValues`: map from configuration level strings to level values. -/
def levelValues (s : String) : Option Int :=
  if s = "trace" then some LevelTrace
  else if s = "debug" then some LevelDebug
  else if s = "verbose" then some LevelVerbose
  else if s = "info" then some LevelInfo
  else if s = "warn" then some LevelWarn
  else if s = "error" then some LevelError
  else if s = "fatal" then some LevelFatal
  else none

def DefaultTimeTemplate : String := "02.01.2006 15:04:05.000"
def DefaultLogType : String := "json"
def DefaultLevel : String := "error"
def DefaultLevelValue : Int := LevelError
def DefaultWriter : String := "stdout"

/-- `strings.ToLower`, as used on configuration values (ASCII suffices for
the recognized vocabulary): lower-case every character. -/
def strToLower (s : String) : String := String.mk (s.data.map Char.toLower)

/-! ## Validators (src/validators.go) -/

/-- The recognized optional configuration keys, in the declaration order of
the `optionalFields` literal in `WithConfig` (src/unnamed/part_000 lines
40-45); every expected value is `""`, of string kind. -/
def optionalFieldsKeys : List String :=
  ["format", "level", "time_template", "log_stream"]

/-- `validateTypes` (src/validators.go lines 109-126): for each recognized
key present in the mapping, compare its primitive kind against the expected
kind (string for all four keys) and collect the mismatching field names.
Go iterates the `optionalFields` map in unspecified order; the embedding
fixes the declaration order, which affects only the order (never the
membership) of the collected names. -/
def validateTypes (cfg : ConfigMap) : List String :=
  optionalFieldsKeys.foldl
    (fun acc field =>
      match cfg field with
      | none => acc
      | some v => if v.kind ≠ GoKind.kString then acc ++ [field] else acc)
    []

/-- `validateLogLevel` (src/validators.go lines 34-49): a present `level`
value must be a string; its lower-casing must be one of `debug`, `info`,
`warn`, `error` or the empty string. -/
def validateLogLevel (cfg : ConfigMap) (ve : validationError) : validationError :=
  match cfg "level" with
  | none => ve
  | some v =>
    match v with
    | .str levelStr =>
      match strToLower levelStr with
      | "debug" | "info" | "warn" | "error" | "" => ve
      | _ => { ve with invalidValues := ve.invalidValues ++ ["level"] }
    | _ => { ve with invalidTypes := ve.invalidTypes ++ ["level"] }

/-- The fixed reference instant `time.Date(2006, 1, 2, 15, 4, 5, 0, UTC)`
as a Unix second count. -/
def refInstant : Int := 1136214245

/-- `validateTimeFormat` (src/validators.go lines 52-71): a present
`time_template` value must be a string; the empty string is valid;
otherwise format the reference instant with the template (`Fm`), parse the
result back with the same template (`Ps`), and require the parse to succeed
with an instant equal to the reference. -/
def validateTimeFormat (Fm : String → Int → String) (Ps : String → String → Option Int)
    (cfg : ConfigMap) (ve : validationError) : validationError :=
  match cfg "time_template" with
  | none => ve
  | some v =>
    match v with
    | .str timeTmpl =>
      if timeTmpl = "" then ve
      else
        let formatted := Fm timeTmpl refInstant
        match Ps timeTmpl formatted with
        | none => { ve with invalidValues := ve.invalidValues ++ ["time_template"] }
        | some parsedTime =>
          if parsedTime = refInstant then ve
          else { ve with invalidValues := ve.invalidValues ++ ["time_template"] }
    | _ => { ve with invalidTypes := ve.invalidTypes ++ ["time_template"] }

/-- `validateWriter` (src/validators.go lines 74-88): a present
`log_stream` value must be a string among `stdout`, `stderr`, `""`. -/
def validateWriter (cfg : ConfigMap) (ve : validationError) : validationError :=
  match cfg "log_stream" with
  | none => ve
  | some v =>
    match v with
    | .str writerStr =>
      match writerStr with
      | "stdout" | "stderr" | "" => ve
      | _ => { ve with invalidValues := ve.invalidValues ++ ["log_stream"] }
    | _ => { ve with invalidTypes := ve.invalidTypes ++ ["log_stream"] }

/-- `validateLogType` (src/validators.go lines 91-105): a present `format`
value must be a string among `json`, `text`, `""`. -/
def validateLogType (cfg : ConfigMap) (ve : validationError) : validationError :=
  match cfg "format" with
  | none => ve
  | some v =>
    match v with
    | .str logTypeStr =>
      match logTypeStr with
      | "json" | "text" | "" => ve
      | _ => { ve with invalidValues := ve.invalidValues ++ ["format"] }
    | _ => { ve with invalidTypes := ve.invalidTypes ++ ["format"] }

/-! ## Attributes and the rewrite hook (src/unnamed/part_006) -/

/-- The reserved timestamp key, `slog.TimeKey`. -/
def timeKey : String := "time"

/-- The reserved severity key, `slog.LevelKey`. -/
def levelKey : String := "level"

/-- A `slog.Value`: the dynamically typed payload of an attribute.  Levels
(`slog.Level`) and plain Go ints are distinct dynamic types; timestamps
carry abstract instants (`Int`); groups nest lists of key/value pairs. -/
inductive Value where
  | vStr (s : String)
  | vInt (i : Int)
  | vLevel (l : Int)
  | vTime (t : Int)
  | vBool (b : Bool)
  | vGroup (g : List (String × Value))
  | vOther
deriving Repr

/-- A `slog.Attr` is a key paired with a value. -/
abbrev Attr := String × Value

/-- `replaceTimeAttrs` (src/unnamed/part_006 lines 30-55): replace
`time.Time` values with their rendering under the configured template
(`Fm timeFormat ·` models `t.Format(timeFormat)`).  The first branch
handles the default record timestamp (reserved key at the top level) and
returns early; the second rewrites any timestamp value anywhere; the third
recurses into group members with the key pushed onto the group path. -/
def replaceTimeAttrs (Fm : String → Int → String) (timeFormat : String) :
    List String → Attr → Attr
  | groups, (key, v) =>
    if key = timeKey ∧ groups = [] then
      match v with
      | .vTime t => (key, .vStr (Fm timeFormat t))
      | _ => (key, v)
    else
      match v with
      | .vTime t => (key, .vStr (Fm timeFormat t))
      | .vGroup g =>
        (key, .vGroup (g.attach.map
          (fun p => replaceTimeAttrs Fm timeFormat (groups ++ [key]) p.1)))
      | _ => (key, v)
termination_by groups a => sizeOf a.2
decreasing_by
  have h := List.sizeOf_lt_of_mem p.2
  obtain ⟨⟨k, w⟩, hp⟩ := p
  simp only [Prod.mk.sizeOf_spec, Value.vGroup.sizeOf_spec] at h ⊢
  omega

/-- `replaceLevelAttr` (src/unnamed/part_006 lines 58-77): when the
attribute carries the reserved severity key at the top level and its value
is a `slog.Level` or an `int` found in the level-name table, replace it
with `slog.String(slog.LevelKey, name)`; otherwise return it unchanged. -/
def replaceLevelAttr (groups : List String) (a : Attr) : Attr :=
  if a.1 = levelKey ∧ groups = [] then
    match a.2 with
    | .vLevel level =>
      match levelNames level with
      | some name => (levelKey, .vStr name)
      | none => a
    | .vInt level =>
      match levelNames level with
      | some name => (levelKey, .vStr name)
      | none => a
    | _ => a
  else a

/-! ## Context extraction keys and logging arguments (src/core.go) -/

/-- A context-extraction key (`any`, comparable).  Go distinguishes three
shapes at the point of use: plain strings, values exposing a
`fmt.Stringer` rendering, and everything else.  The `id` tags keep
distinct non-string keys distinct, as Go's comparability does. -/
inductive CtxKey where
  | str (s : String)
  | stringer (id : Nat) (render : String)
  | otherKey (id : Nat)
deriving DecidableEq, Repr

/-- A value found in the request-scoped store: either an already
fully-formed `slog.Attr`, or a raw value to be wrapped. -/
inductive CtxVal where
  | attr (a : Attr)
  | raw (v : Value)

/-- A request-scoped store (`context.Context`), lookup-only:
`ctx.Value k = none` models a `nil` result. -/
def Ctx : Type := CtxKey → Option CtxVal

/-- One element of a variadic `args ...any` list on a logging call:
either a `slog.Attr` or any other value (opaque here). -/
inductive LogArg where
  | attr (a : Attr)
  | str (s : String)
  | val (v : Value)

/-- `Logger.addContextData` (src/core.go lines 27-48): for each registered
extraction key, look its value up in the context; skip absent keys;
append `slog.Attr` values as-is; otherwise wrap the raw value under a
string key derived from the extraction key (directly for strings, via
`String()` for `fmt.Stringer`s), silently skipping any other key shape. -/
def addContextData (extraCtxFields : List CtxKey) (ctx : Ctx) (args : List LogArg) :
    List LogArg :=
  match extraCtxFields with
  | [] => args
  | k :: rest =>
    let args :=
      match ctx k with
      | none => args
      | some (.attr a) => args ++ [.attr a]
      | some (.raw v) =>
        match k with
        | .str s => args ++ [.attr (s, v)]
        | .stringer _ render => args ++ [.attr (render, v)]
        | .otherKey _ => args
    addContextData rest ctx args

/-! ## Configuration builder (src/unnamed/part_000, part_003) -/

/-- A destination writer (`io.Writer`); `Option Writer` models Go's
nilable interface value in `Config.writer` and `WithWriter`. -/
inductive Writer where
  | stdout
  | stderr
  | custom (id : Nat)
deriving DecidableEq, Repr

/-- The outcome of `buildHandler` (src/unnamed/part_006 lines 10-27): a
handler wiring the minimum level, the chosen encoding, the writer and the
time template that parameterizes the attribute-rewrite hook. -/
structure Handler where
  minLevel : Int
  format : String
  writer : Option Writer
  timeTemplate : String
deriving DecidableEq, Repr

/-- `Config` (src/unnamed/part_000 lines 18-27).  Zero values of the Go
struct: empty strings, `nil` writer and handler, level `0`, `false`,
empty list. -/
structure Config where
  logType : String
  handler : Option Handler
  writer : Option Writer
  timeTemplate : String
  level : Int
  setupLevel : Bool
  extraCtxFields : List CtxKey
deriving DecidableEq, Repr

/-- The zero-valued `Config{}` that `NewLogger` starts from. -/
def emptyConfig : Config :=
  { logType := "", handler := none, writer := none, timeTemplate := "",
    level := 0, setupLevel := false, extraCtxFields := [] }

/-- `Config.checkDefaults` (src/unnamed/part_003 lines 104-117): fill any
zero-valued field from the default table. -/
def Config.checkDefaults (c : Config) : Config :=
  let c := if c.logType = "" then { c with logType := DefaultLogType } else c
  let c := match c.writer with
           | none => { c with writer := some Writer.stdout }
           | some _ => c
  let c := if c.timeTemplate = "" then { c with timeTemplate := DefaultTimeTemplate } else c
  if c.setupLevel then { c with level := DefaultLevelValue } else c

/-- `buildHandler` (src/unnamed/part_006 lines 10-27): the encoding falls
back to JSON for the empty and for unrecognized (lower-cased) format
values; the rewrite hook is parameterized by `c.timeTemplate`. -/
def buildHandler (c : Config) : Handler :=
  { minLevel := c.level,
    format := match strToLower c.logType with
              | "json" | "" => "json"
              | "text" => "text"
              | _ => "json",
    writer := c.writer,
    timeTemplate := c.timeTemplate }

/-- Go's post-validation type assertion `val.(string)`; every call site is
guarded by a passed validation, which guarantees the value is a string. -/
def GoVal.asString : GoVal → String
  | .str s => s
  | _ => ""

/-- An `Option` (src/unnamed/part_000 line 15): a fallible configuration
step; Go's in-place mutation and `error` return become `Except`. -/
def ConfigOption : Type := Config → Except String Config

/-- The validation pass of `WithConfig` (src/unnamed/part_000 lines 46-53):
type check on all four recognized keys, then the four semantic validators,
all accumulating into one `validationError`. -/
def configValidation (Fm : String → Int → String) (Ps : String → String → Option Int)
    (cfg : ConfigMap) : validationError :=
  let ve : validationError := { invalidTypes := validateTypes cfg, invalidValues := [] }
  let ve := validateLogLevel cfg ve
  let ve := validateTimeFormat Fm Ps cfg ve
  let ve := validateWriter cfg ve
  let ve := validateLogType cfg ve
  ve

/-- `WithConfig` (src/unnamed/part_000 lines 38-90): validate, report all
accumulated problems as one error, otherwise copy the present fields into
the configuration (the level string is lower-cased and looked up in
`levelValues`; a miss schedules the default level), apply defaults and
rebuild the handler. -/
def WithConfig (Fm : String → Int → String) (Ps : String → String → Option Int)
    (cfg : ConfigMap) : ConfigOption := fun c =>
  let ve := configValidation Fm Ps cfg
  if ve.hasErrors then
    .error ("config data is invalid: " ++ ve.Error)
  else
    let c := match cfg "level" with
             | some v =>
               let levelStr := strToLower v.asString
               match levelValues levelStr with
               | some level => { c with level := level }
               | none => { c with setupLevel := true }
             | none => c
    let c := match cfg "time_template" with
             | some v => { c with timeTemplate := v.asString }
             | none => c
    let c := match cfg "log_stream" with
             | some v =>
               match strToLower v.asString with
               | "stdout" => { c with writer := some Writer.stdout }
               | "stderr" => { c with writer := some Writer.stderr }
               | _ => c
             | none => c
    let c := match cfg "format" with
             | some v => { c with logType := v.asString }
             | none => c
    let c := c.checkDefaults
    .ok { c with handler := some (buildHandler c) }

/-- `WithWriter` (src/unnamed/part_000 lines 93-104): fail on a `nil`
writer, otherwise replace the writer and rebuild the handler. -/
def WithWriter (w : Option Writer) : ConfigOption := fun c =>
  match w with
  | none => .error "expected io.Writer, got nil"
  | some w =>
    let c := { c with writer := some w }
    .ok { c with handler := some (buildHandler c) }

/-- `WithDefaults` (src/unnamed/part_000 lines 108-115). -/
def WithDefaults (Fm : String → Int → String) (Ps : String → String → Option Int) :
    ConfigOption :=
  WithConfig Fm Ps (fun k =>
    if k = "format" then some (.str DefaultLogType)
    else if k = "level" then some (.str DefaultLevel)
    else if k = "time_template" then some (.str DefaultTimeTemplate)
    else if k = "log_stream" then some (.str DefaultWriter)
    else none)

/-- `Logger` (src/core.go lines 11-14): the built handler plus the ordered
extraction-key sequence.  (`slog.New(cfg.handler)` is the external
collaborator; the handler itself is retained.) -/
structure Logger where
  handler : Option Handler
  extraCtxFields : List CtxKey

/-- The option loop of `NewLogger` (src/unnamed/part_000 lines 178-182):
apply each option in order, stopping at the first failure. -/
def applyOpts : List ConfigOption → Config → Except String Config
  | [], c => .ok c
  | opt :: rest, c =>
    match opt c with
    | .error e => .error e
    | .ok c => applyOpts rest c

/-- `NewLogger` (src/unnamed/part_000 lines 171-185): start from the zero
configuration, apply defaults, then the user options in order; the first
failing option aborts construction with its error wrapped as
`logger initialization failed: ...`, and no logger value exists in the
error branch. -/
def NewLogger (Fm : String → Int → String) (Ps : String → String → Option Int)
    (opts : List ConfigOption) : Except String Logger :=
  let cfg := emptyConfig
  match WithDefaults Fm Ps cfg with
  | .error _ => .error "default logger initialization failed"
  | .ok cfg =>
    match applyOpts opts cfg with
    | .error e => .error ("logger initialization failed: " ++ e)
    | .ok cfg => .ok { handler := cfg.handler, extraCtxFields := cfg.extraCtxFields }

/-! ## The fatal method as an event trace (src/core.go lines 81-84) -/

/-- An observable effect of a logging call: forwarding a record to the
underlying logger, or terminating the process. -/
inductive Event where
  | logged (level : Int) (msg : String) (args : List LogArg)
  | exited (code : Nat)

/-- `Logger.Fatal` (src/core.go lines 81-84): `logg.l.Log(ctx, LevelFatal,
msg, logg.addContextData(ctx, args...)...)` followed by `os.Exit(1)`,
modelled as the ordered trace of the two effects. -/
def Logger.Fatal (logg : Logger) (ctx : Ctx) (msg : String) (args : List LogArg) :
    List Event :=
  [Event.logged LevelFatal msg (addContextData logg.extraCtxFields ctx args),
   Event.exited 1]

/-! ## Helper lemmas about the validators -/

/-- Key `k` is present in `cfg` with a value of the wrong primitive kind
(every recognized key expects string kind). -/
def wrongKind (cfg : ConfigMap) (k : String) : Prop :=
  ∃ v, cfg k = some v ∧ v.kind ≠ GoKind.kString

/-- Boolean form of `wrongKind`. -/
def wrongKindB (cfg : ConfigMap) (k : String) : Bool :=
  match cfg k with
  | none => false
  | some v => decide (v.kind ≠ GoKind.kString)

lemma wrongKindB_iff {cfg : ConfigMap} {k : String} :
    wrongKindB cfg k = true ↔ wrongKind cfg k := by
  unfold wrongKindB wrongKind
  cases h : cfg k with
  | none => simp [h]
  | some v => simp [h]

lemma foldl_collect {α : Type} (p : α → Bool) (l acc : List α) :
    l.foldl (fun a x => if p x then a ++ [x] else a) acc = acc ++ l.filter p := by
  induction l generalizing acc with
  | nil => simp
  | cons x xs ih =>
    by_cases h : p x <;> simp [List.foldl_cons, h, ih, List.filter_cons]

lemma validateTypes_eq (cfg : ConfigMap) :
    validateTypes cfg = optionalFieldsKeys.filter (wrongKindB cfg) := by
  have hstep : (fun (acc : List String) field =>
      match cfg field with
      | none => acc
      | some v => if v.kind ≠ GoKind.kString then acc ++ [field] else acc)
      = fun (acc : List String) x => if wrongKindB cfg x then acc ++ [x] else acc := by
    funext acc x
    unfold wrongKindB
    cases h : cfg x with
    | none => simp
    | some v => by_cases hk : v.kind = GoKind.kString <;> simp [hk]
  unfold validateTypes
  rw [hstep, foldl_collect]
  simp

lemma mem_validateTypes {cfg : ConfigMap} {k : String} :
    k ∈ validateTypes cfg ↔ k ∈ optionalFieldsKeys ∧ wrongKind cfg k := by
  rw [validateTypes_eq, List.mem_filter, wrongKindB_iff]

lemma validateLogLevel_invalidTypes (cfg : ConfigMap) (ve : validationError) :
    (validateLogLevel cfg ve).invalidTypes =
      ve.invalidTypes ++ (if wrongKindB cfg "level" then ["level"] else []) := by
  cases h : cfg "level" with
  | none => simp [validateLogLevel, wrongKindB, h]
  | some v =>
    cases v with
    | str s =>
      simp only [validateLogLevel, wrongKindB, h, GoVal.kind]
      split <;> simp
    | int i => simp [validateLogLevel, wrongKindB, h, GoVal.kind]
    | bool b => simp [validateLogLevel, wrongKindB, h, GoVal.kind]
    | other => simp [validateLogLevel, wrongKindB, h, GoVal.kind]

lemma validateTimeFormat_invalidTypes (Fm : String → Int → String)
    (Ps : String → String → Option Int) (cfg : ConfigMap) (ve : validationError) :
    (validateTimeFormat Fm Ps cfg ve).invalidTypes =
      ve.invalidTypes ++ (if wrongKindB cfg "time_template" then ["time_template"] else []) := by
  cases h : cfg "time_template" with
  | none => simp [validateTimeFormat, wrongKindB, h]
  | some v =>
    cases v with
    | str s =>
      have hw : wrongKindB cfg "time_template" = false := by
        simp [wrongKindB, h, GoVal.kind]
      simp only [validateTimeFormat, h, hw, Bool.false_eq_true, if_false, List.append_nil]
      by_cases hs : s = ""
      · simp [hs]
      · simp only [hs, if_false]
        split <;> (try split) <;> simp
    | int i => simp [validateTimeFormat, wrongKindB, h, GoVal.kind]
    | bool b => simp [validateTimeFormat, wrongKindB, h, GoVal.kind]
    | other => simp [validateTimeFormat, wrongKindB, h, GoVal.kind]

lemma validateWriter_invalidTypes (cfg : ConfigMap) (ve : validationError) :
    (validateWriter cfg ve).invalidTypes =
      ve.invalidTypes ++ (if wrongKindB cfg "log_stream" then ["log_stream"] else []) := by
  cases h : cfg "log_stream" with
  | none => simp [validateWriter, wrongKindB, h]
  | some v =>
    cases v with
    | str s =>
      simp only [validateWriter, wrongKindB, h, GoVal.kind]
      split <;> simp
    | int i => simp [validateWriter, wrongKindB, h, GoVal.kind]
    | bool b => simp [validateWriter, wrongKindB, h, GoVal.kind]
    | other => simp [validateWriter, wrongKindB, h, GoVal.kind]

lemma validateLogType_invalidTypes (cfg : ConfigMap) (ve : validationError) :
    (validateLogType cfg ve).invalidTypes =
      ve.invalidTypes ++ (if wrongKindB cfg "format" then ["format"] else []) := by
  cases h : cfg "format" with
  | none => simp [validateLogType, wrongKindB, h]
  | some v =>
    cases v with
    | str s =>
      simp only [validateLogType, wrongKindB, h, GoVal.kind]
      split <;> simp
    | int i => simp [validateLogType, wrongKindB, h, GoVal.kind]
    | bool b => simp [validateLogType, wrongKindB, h, GoVal.kind]
    | other => simp [validateLogType, wrongKindB, h, GoVal.kind]

lemma configValidation_invalidTypes (Fm : String → Int → String)
    (Ps : String → String → Option Int) (cfg : ConfigMap) :
    (configValidation Fm Ps cfg).invalidTypes =
      validateTypes cfg
      ++ (if wrongKindB cfg "level" then ["level"] else [])
      ++ (if wrongKindB cfg "time_template" then ["time_template"] else [])
      ++ (if wrongKindB cfg "log_stream" then ["log_stream"] else [])
      ++ (if wrongKindB cfg "format" then ["format"] else []) := by
  unfold configValidation
  rw [validateLogType_invalidTypes, validateWriter_invalidTypes,
    validateTimeFormat_invalidTypes, validateLogLevel_invalidTypes]

lemma mem_ite_singleton {b : Bool} {x k : String} :
    k ∈ (if b then [x] else ([] : List String)) ↔ (k = x ∧ b = true) := by
  cases b <;> simp

lemma mem_configValidation_invalidTypes {Fm : String → Int → String}
    {Ps : String → String → Option Int} {cfg : ConfigMap} {k : String} :
    k ∈ (configValidation Fm Ps cfg).invalidTypes ↔
      (k ∈ optionalFieldsKeys ∧ wrongKind cfg k) := by
  rw [configValidation_invalidTypes]
  simp only [List.mem_append, mem_validateTypes, mem_ite_singleton, wrongKindB_iff]
  constructor
  · rintro ((((h | ⟨rfl, h⟩) | ⟨rfl, h⟩) | ⟨rfl, h⟩) | ⟨rfl, h⟩)
    · exact h
    · exact ⟨by decide, h⟩
    · exact ⟨by decide, h⟩
    · exact ⟨by decide, h⟩
    · exact ⟨by decide, h⟩
  · intro h
    exact Or.inl (Or.inl (Or.inl (Or.inl h)))

lemma hasErrors_of_mem_invalidTypes {ve : validationError} {k : String}
    (h : k ∈ ve.invalidTypes) : ve.hasErrors = true := by
  unfold validationError.hasErrors
  cases ht : ve.invalidTypes with
  | nil => rw [ht] at h; exact absurd h (List.not_mem_nil _)
  | cons a l => simp [ht]

lemma Error_shape {ve : validationError} (ht : ve.invalidTypes ≠ []) :
    ve.Error = "invalid_type=" ++ String.intercalate "," ve.invalidTypes ++
      (if ve.invalidValues.isEmpty then ""
       else ", " ++ "invalid_value=" ++ String.intercalate "," ve.invalidValues) := by
  unfold validationError.Error
  have h1 : ve.invalidTypes.isEmpty = false := by
    cases hv : ve.invalidTypes with
    | nil => exact absurd hv ht
    | cons a l => simp
  simp only [h1, Bool.false_eq_true, if_false]
  by_cases h2 : ve.invalidValues.isEmpty <;> simp [h2, String.append_assoc]

lemma WithConfig_error {Fm : String → Int → String} {Ps : String → String → Option Int}
    {cfg : ConfigMap} {c : Config}
    (h : (configValidation Fm Ps cfg).hasErrors = true) :
    WithConfig Fm Ps cfg c =
      .error ("config data is invalid: " ++ (configValidation Fm Ps cfg).Error) := by
  unfold WithConfig
  simp [h]

/-- Claim C1. `WithConfig` validates all four recognized keys in one pass
(never failing fast): when values of the wrong primitive kind are supplied
under two or more distinct recognized keys, it returns exactly one error
(the single `.error` constructor of the `Except`), the keys listed in the
`invalid_type` section of the message are all and only the recognized keys
holding wrong-kind values, and the message consists of the `invalid_type=`
part followed by an `invalid_value=` part, the latter present only when
non-empty and joined by `", "`. -/
theorem withConfig_accumulates_type_errors
    (Fm : String → Int → String) (Ps : String → String → Option Int)
    (cfg : ConfigMap) (c : Config) (k1 k2 : String)
    (hk1 : k1 ∈ optionalFieldsKeys) (hk2 : k2 ∈ optionalFieldsKeys) (hne : k1 ≠ k2)
    (hw1 : wrongKind cfg k1) (hw2 : wrongKind cfg k2) :
    WithConfig Fm Ps cfg c =
        .error ("config data is invalid: " ++ (configValidation Fm Ps cfg).Error)
    ∧ (∀ k, k ∈ (configValidation Fm Ps cfg).invalidTypes ↔
        (k ∈ optionalFieldsKeys ∧ wrongKind cfg k))
    ∧ (configValidation Fm Ps cfg).Error =
        "invalid_type=" ++
          String.intercalate "," (configValidation Fm Ps cfg).invalidTypes ++
        (if (configValidation Fm Ps cfg).invalidValues.isEmpty then ""
         else ", " ++ "invalid_value=" ++
           String.intercalate "," (configValidation Fm Ps cfg).invalidValues) := by
  have hmem : k1 ∈ (configValidation Fm Ps cfg).invalidTypes :=
    mem_configValidation_invalidTypes.mpr ⟨hk1, hw1⟩
  have hne' : (configValidation Fm Ps cfg).invalidTypes ≠ [] := by
    intro hemp
    rw [hemp] at hmem
    exact absurd hmem (List.not_mem_nil _)
  exact ⟨WithConfig_error (hasErrors_of_mem_invalidTypes hmem),
    fun k => mem_configValidation_invalidTypes, Error_shape hne'⟩

/-- A trivial stand-in for the external `time.Format`. -/
def FmTriv : String → Int → String := fun _ _ => "t"

/-- A trivial stand-in for the external `time.Parse` that always recovers
the reference instant. -/
def PsTriv : String → String → Option Int := fun _ _ => some refInstant

/-- A configuration map holding wrong-kind values under two keys. -/
def cfgC1 : ConfigMap := fun k =>
  if k = "level" then some (.int 123)
  else if k = "format" then some (.bool true) else none

/-- Witness for C1: a configuration with an `int` under `level` and a
`bool` under `format`. -/
theorem withConfig_accumulates_type_errors_witness :
    WithConfig FmTriv PsTriv cfgC1 emptyConfig =
        .error ("config data is invalid: " ++ (configValidation FmTriv PsTriv cfgC1).Error)
    ∧ (∀ k, k ∈ (configValidation FmTriv PsTriv cfgC1).invalidTypes ↔
        (k ∈ optionalFieldsKeys ∧ wrongKind cfgC1 k))
    ∧ (configValidation FmTriv PsTriv cfgC1).Error =
        "invalid_type=" ++
          String.intercalate "," (configValidation FmTriv PsTriv cfgC1).invalidTypes ++
        (if (configValidation FmTriv PsTriv cfgC1).invalidValues.isEmpty then ""
         else ", " ++ "invalid_value=" ++
           String.intercalate "," (configValidation FmTriv PsTriv cfgC1).invalidValues) :=
  withConfig_accumulates_type_errors FmTriv PsTriv cfgC1 emptyConfig "level" "format"
    (by decide) (by decide) (by decide)
    ⟨.int 123, by decide, by decide⟩ ⟨.bool true, by decide, by decide⟩

/-- Claim C2. A `time_template` string value passes validation (leaves the
accumulator untouched) iff it is empty or formatting the fixed reference
instant with the template and parsing the result back with the same
template succeeds and returns exactly the reference instant; any parse
failure or inequality appends `time_template` to the invalid values. -/
theorem timeTemplate_roundtrip_law
    (Fm : String → Int → String) (Ps : String → String → Option Int)
    (cfg : ConfigMap) (ve : validationError) (s : String)
    (h : cfg "time_template" = some (.str s)) :
    (validateTimeFormat Fm Ps cfg ve = ve ↔
      (s = "" ∨ Ps s (Fm s refInstant) = some refInstant))
    ∧ (s ≠ "" → Ps s (Fm s refInstant) ≠ some refInstant →
        validateTimeFormat Fm Ps cfg ve =
          { ve with invalidValues := ve.invalidValues ++ ["time_template"] })
    ∧ (s = "" → validateTimeFormat Fm Ps cfg ve = ve) := by
  by_cases hs : s = ""
  · exact ⟨by simp [validateTimeFormat, h, hs],
      fun hne _ => absurd hs hne,
      fun _ => by simp [validateTimeFormat, h, hs]⟩
  · have hbad : ({ ve with invalidValues := ve.invalidValues ++ ["time_template"] }
        : validationError) ≠ ve := by
      intro he
      have h2 := congrArg validationError.invalidValues he
      simp at h2
    cases hp : Ps s (Fm s refInstant) with
    | none =>
      have hres : validateTimeFormat Fm Ps cfg ve =
          { ve with invalidValues := ve.invalidValues ++ ["time_template"] } := by
        simp [validateTimeFormat, h, hs, hp]
      refine ⟨?_, fun _ _ => hres, fun he => absurd he hs⟩
      rw [hres]
      simp [hs, hbad]
    | some t =>
      by_cases ht : t = refInstant
      · subst ht
        have hres : validateTimeFormat Fm Ps cfg ve = ve := by
          simp [validateTimeFormat, h, hs, hp]
        refine ⟨?_, fun _ hne2 => absurd rfl hne2, fun he => absurd he hs⟩
        rw [hres]
        simp [hp]
      · have hres : validateTimeFormat Fm Ps cfg ve =
            { ve with invalidValues := ve.invalidValues ++ ["time_template"] } := by
          simp [validateTimeFormat, h, hs, hp, ht]
        refine ⟨?_, fun _ _ => hres, fun he => absurd he hs⟩
        rw [hres]
        simp [hs, hbad, hp, ht]

/-- A configuration map carrying only a non-empty time template. -/
def cfgC2 : ConfigMap := fun k =>
  if k = "time_template" then some (.str "tpl") else none

/-- Witness for C2 at a concrete template and a parse function that
recovers the reference instant. -/
theorem timeTemplate_roundtrip_law_witness :
    (validateTimeFormat FmTriv PsTriv cfgC2 ⟨[], []⟩ = ⟨[], []⟩ ↔
      ("tpl" = "" ∨ PsTriv "tpl" (FmTriv "tpl" refInstant) = some refInstant))
    ∧ ("tpl" ≠ "" → PsTriv "tpl" (FmTriv "tpl" refInstant) ≠ some refInstant →
        validateTimeFormat FmTriv PsTriv cfgC2 ⟨[], []⟩ =
          { invalidTypes := [], invalidValues := [] ++ ["time_template"] })
    ∧ ("tpl" = "" → validateTimeFormat FmTriv PsTriv cfgC2 ⟨[], []⟩ = ⟨[], []⟩) :=
  timeTemplate_roundtrip_law FmTriv PsTriv cfgC2 ⟨[], []⟩ "tpl" (by decide)

lemma checkDefaults_level (c : Config) :
    (Config.checkDefaults c).level = if c.setupLevel then DefaultLevelValue else c.level := by
  unfold Config.checkDefaults
  cases hw : c.writer <;> by_cases h1 : c.logType = "" <;> by_cases h2 : c.timeTemplate = "" <;>
    by_cases h3 : c.setupLevel <;> simp [hw, h1, h2, h3]

/-- A configuration map whose `level` value is `"trace"`. -/
def cfgTrace : ConfigMap := fun k =>
  if k = "level" then some (.str "trace") else none

/-- Claim C3, counterexample. `"trace"` lower-cases to one of the seven level
names (`levelValues` maps it to `LevelTrace`), yet `validateLogLevel`
(src/validators.go lines 34-49) records it as an invalid value, so the
claimed "iff one of the seven level names" fails at this input. -/
theorem logLevel_seven_names_counterexample :
    validateLogLevel cfgTrace ⟨[], []⟩ = ⟨[], ["level"]⟩
    ∧ levelValues (strToLower "trace") = some LevelTrace := by
  constructor
  · rfl
  · rfl

/-- Claim C3, amended. A string supplied under `level` passes validation iff
its lower-casing is one of `debug`, `info`, `warn`, `error` or the empty
string (the accepted vocabulary of the cited validator is these four
names, not all seven); and an empty level string is accepted and resolves
to the default level (`error`, value `8`) at build time. -/
theorem logLevel_vocabulary_amended :
    (∀ (cfg : ConfigMap) (ve : validationError) (s : String),
      cfg "level" = some (.str s) →
      (validateLogLevel cfg ve = ve ↔
        (strToLower s = "debug" ∨ strToLower s = "info" ∨ strToLower s = "warn" ∨
         strToLower s = "error" ∨ strToLower s = "")))
    ∧ (∀ (Fm : String → Int → String) (Ps : String → String → Option Int) (c : Config),
        ∃ c', WithConfig Fm Ps (fun k => if k = "level" then some (.str "") else none) c
                = .ok c'
              ∧ c'.level = DefaultLevelValue) := by
  constructor
  · intro cfg ve s h
    have hbad : ({ ve with invalidValues := ve.invalidValues ++ ["level"] }
        : validationError) ≠ ve := by
      intro he
      have h2 := congrArg validationError.invalidValues he
      simp at h2
    simp only [validateLogLevel, h]
    split <;> simp_all
  · intro Fm Ps c
    refine ⟨_, rfl, ?_⟩
    have hnone : levelValues (strToLower (GoVal.str "").asString) = none := rfl
    simp [checkDefaults_level, hnone, DefaultLevelValue]

/-- Witness for the amended C3 at concrete inputs. -/
theorem logLevel_vocabulary_amended_witness :
    (validateLogLevel cfgTrace ⟨[], []⟩ = ⟨[], []⟩ ↔
      (strToLower "trace" = "debug" ∨ strToLower "trace" = "info" ∨ strToLower "trace" = "warn" ∨
       strToLower "trace" = "error" ∨ strToLower "trace" = ""))
    ∧ (∃ c', WithConfig FmTriv PsTriv (fun k => if k = "level" then some (.str "") else none)
          emptyConfig = .ok c'
        ∧ c'.level = DefaultLevelValue) :=
  ⟨logLevel_vocabulary_amended.1 cfgTrace ⟨[], []⟩ "trace" (by decide),
   logLevel_vocabulary_amended.2 FmTriv PsTriv emptyConfig⟩

/-! ## Helper lemmas about the rewrite hook -/

lemma replaceTimeAttrs_eq (Fm : String → Int → String) (fmt : String)
    (groups : List String) (key : String) (v : Value) :
    replaceTimeAttrs Fm fmt groups (key, v) =
      if key = timeKey ∧ groups = [] then
        match v with
        | Value.vTime t => (key, Value.vStr (Fm fmt t))
        | _ => (key, v)
      else
        match v with
        | Value.vTime t => (key, Value.vStr (Fm fmt t))
        | Value.vGroup g =>
          (key, Value.vGroup (g.map (replaceTimeAttrs Fm fmt (groups ++ [key]))))
        | _ => (key, v) := by
  rw [replaceTimeAttrs.eq_def]
  show (if key = timeKey ∧ groups = [] then
          match v with
          | Value.vTime t => (key, Value.vStr (Fm fmt t))
          | _ => (key, v)
        else
          match v with
          | Value.vTime t => (key, Value.vStr (Fm fmt t))
          | Value.vGroup g =>
            (key, Value.vGroup
              (List.map (fun p => replaceTimeAttrs Fm fmt (groups ++ [key]) p.1) g.attach))
          | _ => (key, v)) = _
  by_cases h : key = timeKey ∧ groups = []
  · rw [if_pos h, if_pos h]
  · rw [if_neg h, if_neg h]
    cases v <;> simp [List.attach_map_val]

lemma rt_vStr {Fm : String → Int → String} {fmt : String} {groups : List String}
    {key s : String} :
    replaceTimeAttrs Fm fmt groups (key, .vStr s) = (key, .vStr s) := by
  rw [replaceTimeAttrs_eq]; split <;> rfl

lemma rt_vInt {Fm : String → Int → String} {fmt : String} {groups : List String}
    {key : String} {i : Int} :
    replaceTimeAttrs Fm fmt groups (key, .vInt i) = (key, .vInt i) := by
  rw [replaceTimeAttrs_eq]; split <;> rfl

lemma rt_vLevel {Fm : String → Int → String} {fmt : String} {groups : List String}
    {key : String} {l : Int} :
    replaceTimeAttrs Fm fmt groups (key, .vLevel l) = (key, .vLevel l) := by
  rw [replaceTimeAttrs_eq]; split <;> rfl

lemma rt_vBool {Fm : String → Int → String} {fmt : String} {groups : List String}
    {key : String} {b : Bool} :
    replaceTimeAttrs Fm fmt groups (key, .vBool b) = (key, .vBool b) := by
  rw [replaceTimeAttrs_eq]; split <;> rfl

lemma rt_vOther {Fm : String → Int → String} {fmt : String} {groups : List String}
    {key : String} :
    replaceTimeAttrs Fm fmt groups (key, .vOther) = (key, .vOther) := by
  rw [replaceTimeAttrs_eq]; split <;> rfl

lemma rt_vTime {Fm : String → Int → String} {fmt : String} {groups : List String}
    {key : String} {t : Int} :
    replaceTimeAttrs Fm fmt groups (key, .vTime t) = (key, .vStr (Fm fmt t)) := by
  rw [replaceTimeAttrs_eq]; split <;> rfl

lemma rt_vGroup_top_time {Fm : String → Int → String} {fmt : String}
    {groups : List String} {key : String} {g : List (String × Value)}
    (h : key = timeKey ∧ groups = []) :
    replaceTimeAttrs Fm fmt groups (key, .vGroup g) = (key, .vGroup g) := by
  rw [replaceTimeAttrs_eq, if_pos h]

lemma rt_vGroup_rec {Fm : String → Int → String} {fmt : String}
    {groups : List String} {key : String} {g : List (String × Value)}
    (h : ¬(key = timeKey ∧ groups = [])) :
    replaceTimeAttrs Fm fmt groups (key, .vGroup g)
      = (key, .vGroup (g.map (replaceTimeAttrs Fm fmt (groups ++ [key])))) := by
  rw [replaceTimeAttrs_eq, if_neg h]

lemma rl_not_top {groups : List String} {key : String} {v : Value}
    (h : ¬(key = levelKey ∧ groups = [])) :
    replaceLevelAttr groups (key, v) = (key, v) := by
  unfold replaceLevelAttr
  rw [if_neg h]

/-- Induction over values, with the inductive hypothesis available for
every member of a group. -/
theorem Value.indOn {motive : Value → Prop}
    (hstr : ∀ s, motive (.vStr s)) (hint : ∀ i, motive (.vInt i))
    (hlvl : ∀ l, motive (.vLevel l)) (htime : ∀ t, motive (.vTime t))
    (hbool : ∀ b, motive (.vBool b)) (hother : motive .vOther)
    (hgroup : ∀ g, (∀ p ∈ g, motive p.2) → motive (.vGroup g)) :
    ∀ v, motive v
  | .vStr s => hstr s
  | .vInt i => hint i
  | .vLevel l => hlvl l
  | .vTime t => htime t
  | .vBool b => hbool b
  | .vOther => hother
  | .vGroup g => hgroup g (fun p hp =>
      Value.indOn hstr hint hlvl htime hbool hother hgroup p.2)
termination_by v => sizeOf v
decreasing_by
  have h := List.sizeOf_lt_of_mem hp
  obtain ⟨k, w⟩ := p
  simp only [Prod.mk.sizeOf_spec, Value.vGroup.sizeOf_spec] at h ⊢
  omega

/-- A concrete stand-in for `time.Time.Format` used on counterexamples. -/
def FmC4 : String → Int → String := fun fmt t => fmt ++ toString t

/-- Claim C4, counterexample. A top-level attribute carrying the reserved
timestamp key whose value is a nested group is returned unchanged by
`replaceTimeAttrs` — the early return for the reserved key fires before
the group recursion — although the group holds a member whose value is a
timestamp, which the claim requires to be replaced by its text rendering
(and a timestamp value is not its text rendering). -/
theorem timeKeyedGroup_not_recursed_counterexample :
    replaceTimeAttrs FmC4 "x" [] (timeKey, .vGroup [("ts", .vTime 5)])
      = (timeKey, .vGroup [("ts", .vTime 5)])
    ∧ Value.vTime 5 ≠ Value.vStr (FmC4 "x" 5) := by
  constructor
  · exact rt_vGroup_top_time ⟨rfl, rfl⟩
  · intro h
    exact Value.noConfusion h

/-- Claim C4, amended. `replaceTimeAttrs`: any attribute whose value is a
timestamp (at any depth, including the reserved timestamp key at the top
level) has its value replaced by its text rendering under the configured
template; a nested group attribute — except one carrying the reserved
timestamp key at the top level, which is returned unchanged — is rewritten
by recursing into every member with the same template and the nesting path
extended by the group key (so the extended path is never empty and the
top-level-only checks cannot fire inside); attributes matching neither
rule pass through unchanged. -/
theorem replaceTimeAttrs_cases (Fm : String → Int → String) (fmt : String)
    (groups : List String) (key : String) (v : Value) :
    (∀ t, v = .vTime t →
      replaceTimeAttrs Fm fmt groups (key, v) = (key, .vStr (Fm fmt t)))
    ∧ (∀ g, v = .vGroup g → ¬(key = timeKey ∧ groups = []) →
        replaceTimeAttrs Fm fmt groups (key, v)
          = (key, .vGroup (g.map (replaceTimeAttrs Fm fmt (groups ++ [key]))))
        ∧ groups ++ [key] ≠ [])
    ∧ (∀ g, v = .vGroup g → key = timeKey → groups = [] →
        replaceTimeAttrs Fm fmt groups (key, v) = (key, v))
    ∧ ((∀ t, v ≠ .vTime t) → (∀ g, v ≠ .vGroup g) →
        replaceTimeAttrs Fm fmt groups (key, v) = (key, v)) := by
  refine ⟨?_, ?_, ?_, ?_⟩
  · rintro t rfl
    exact rt_vTime
  · rintro g rfl h
    exact ⟨rt_vGroup_rec h, by simp⟩
  · rintro g rfl hk hg
    exact rt_vGroup_top_time ⟨hk, hg⟩
  · intro ht hg
    cases v with
    | vStr s => exact rt_vStr
    | vInt i => exact rt_vInt
    | vLevel l => exact rt_vLevel
    | vTime t => exact absurd rfl (ht t)
    | vBool b => exact rt_vBool
    | vGroup g => exact absurd rfl (hg g)
    | vOther => exact rt_vOther

/-- Witness for the amended C4: a timestamp value is rendered, a nested
group (not time-keyed) is recursed into, a top-level time-keyed group is
left unchanged, and a plain string passes through. -/
theorem replaceTimeAttrs_cases_witness :
    (replaceTimeAttrs FmC4 "x" [] ("stamp", .vTime 5) = ("stamp", .vStr (FmC4 "x" 5)))
    ∧ (replaceTimeAttrs FmC4 "x" [] ("req", .vGroup [("ts", .vTime 5)])
        = ("req", .vGroup ([("ts", .vTime 5)].map (replaceTimeAttrs FmC4 "x" ([] ++ ["req"]))))
       ∧ ([] : List String) ++ ["req"] ≠ [])
    ∧ (replaceTimeAttrs FmC4 "x" [] (timeKey, .vGroup [("ts", .vTime 5)])
        = (timeKey, .vGroup [("ts", .vTime 5)]))
    ∧ (replaceTimeAttrs FmC4 "x" [] ("msg", .vStr "hello") = ("msg", .vStr "hello")) :=
  ⟨(replaceTimeAttrs_cases FmC4 "x" [] "stamp" (.vTime 5)).1 5 rfl,
   (replaceTimeAttrs_cases FmC4 "x" [] "req" (.vGroup [("ts", .vTime 5)])).2.1
     [("ts", .vTime 5)] rfl (by simp [timeKey]),
   (replaceTimeAttrs_cases FmC4 "x" [] timeKey (.vGroup [("ts", .vTime 5)])).2.2.1
     [("ts", .vTime 5)] rfl rfl rfl,
   (replaceTimeAttrs_cases FmC4 "x" [] "msg" (.vStr "hello")).2.2.2
     (fun t h => Value.noConfusion h) (fun g h => Value.noConfusion h)⟩

/-- Claim C5. `replaceLevelAttr`: an attribute with the reserved severity key
at the top level (empty group path) whose value is a severity level, or an
int, found in the level-name table is replaced by the matching uppercase
name; values matching no known level are left unrewritten; and inside a
nested group (non-empty path) the rule never rewrites. -/
theorem replaceLevelAttr_cases (groups : List String) (key : String) (v : Value) :
    (∀ l n, groups = [] → key = levelKey → v = .vLevel l → levelNames l = some n →
        replaceLevelAttr groups (key, v) = (levelKey, .vStr n))
    ∧ (∀ i n, groups = [] → key = levelKey → v = .vInt i → levelNames i = some n →
        replaceLevelAttr groups (key, v) = (levelKey, .vStr n))
    ∧ (∀ l, groups = [] → key = levelKey → v = .vLevel l → levelNames l = none →
        replaceLevelAttr groups (key, v) = (key, v))
    ∧ (∀ i, groups = [] → key = levelKey → v = .vInt i → levelNames i = none →
        replaceLevelAttr groups (key, v) = (key, v))
    ∧ (groups ≠ [] → replaceLevelAttr groups (key, v) = (key, v)) := by
  refine ⟨?_, ?_, ?_, ?_, ?_⟩
  · rintro l n rfl rfl rfl hn
    simp [replaceLevelAttr, hn]
  · rintro i n rfl rfl rfl hn
    simp [replaceLevelAttr, hn]
  · rintro l rfl rfl rfl hn
    simp [replaceLevelAttr, hn]
  · rintro i rfl rfl rfl hn
    simp [replaceLevelAttr, hn]
  · intro hg
    exact rl_not_top (fun hc => hg hc.2)

/-- Witness for C5: `slog.Level 4` under the severity key at top level
becomes `WARN`; the int `-8` becomes `TRACE`; the unknown value `3` stays;
and inside a group nothing is rewritten. -/
theorem replaceLevelAttr_cases_witness :
    replaceLevelAttr [] (levelKey, .vLevel 4) = (levelKey, .vStr "WARN")
    ∧ replaceLevelAttr [] (levelKey, .vInt (-8)) = (levelKey, .vStr "TRACE")
    ∧ replaceLevelAttr [] (levelKey, .vLevel 3) = (levelKey, .vLevel 3)
    ∧ replaceLevelAttr ["g"] (levelKey, .vLevel 4) = (levelKey, .vLevel 4) :=
  ⟨(replaceLevelAttr_cases [] levelKey (.vLevel 4)).1 4 "WARN" rfl rfl rfl (by decide),
   (replaceLevelAttr_cases [] levelKey (.vInt (-8))).2.1 (-8) "TRACE" rfl rfl rfl (by decide),
   (replaceLevelAttr_cases [] levelKey (.vLevel 3)).2.2.1 3 rfl rfl rfl (by decide),
   (replaceLevelAttr_cases ["g"] levelKey (.vLevel 4)).2.2.2.2 (by simp)⟩

lemma rl_idem (groups : List String) (a : Attr) :
    replaceLevelAttr groups (replaceLevelAttr groups a) = replaceLevelAttr groups a := by
  obtain ⟨key, v⟩ := a
  by_cases h : key = levelKey ∧ groups = []
  · obtain ⟨rfl, rfl⟩ := h
    cases v with
    | vLevel l =>
      cases hn : levelNames l with
      | none => simp [replaceLevelAttr, hn]
      | some n => simp [replaceLevelAttr, hn]
    | vInt i =>
      cases hn : levelNames i with
      | none => simp [replaceLevelAttr, hn]
      | some n => simp [replaceLevelAttr, hn]
    | vStr s => simp [replaceLevelAttr]
    | vTime t => simp [replaceLevelAttr]
    | vBool b => simp [replaceLevelAttr]
    | vGroup g => simp [replaceLevelAttr]
    | vOther => simp [replaceLevelAttr]
  · rw [rl_not_top h, rl_not_top h]

lemma rt_idem (Fm : String → Int → String) (fmt : String) :
    ∀ (v : Value) (groups : List String) (key : String),
      replaceTimeAttrs Fm fmt groups (replaceTimeAttrs Fm fmt groups (key, v))
        = replaceTimeAttrs Fm fmt groups (key, v) := by
  intro v
  induction v using Value.indOn with
  | hstr s => intro groups key; rw [rt_vStr, rt_vStr]
  | hint i => intro groups key; rw [rt_vInt, rt_vInt]
  | hlvl l => intro groups key; rw [rt_vLevel, rt_vLevel]
  | htime t => intro groups key; rw [rt_vTime, rt_vStr]
  | hbool b => intro groups key; rw [rt_vBool, rt_vBool]
  | hother => intro groups key; rw [rt_vOther, rt_vOther]
  | hgroup g ih =>
    intro groups key
    by_cases h : key = timeKey ∧ groups = []
    · rw [rt_vGroup_top_time h, rt_vGroup_top_time h]
    · rw [rt_vGroup_rec h, rt_vGroup_rec h, List.map_map]
      congr 1
      congr 1
      apply List.map_congr_left
      intro p hp
      have h2 := ih p hp (groups ++ [key]) p.1
      simpa [Function.comp, Prod.mk.eta] using h2

lemma rt_fst (Fm : String → Int → String) (fmt : String) (groups : List String)
    (key : String) (v : Value) :
    ∃ v', replaceTimeAttrs Fm fmt groups (key, v) = (key, v') := by
  rw [replaceTimeAttrs_eq]
  split <;> cases v <;> exact ⟨_, rfl⟩

lemma rt_rl_comm (Fm : String → Int → String) (fmt : String)
    (groups : List String) (a : Attr) :
    replaceTimeAttrs Fm fmt groups (replaceLevelAttr groups a)
      = replaceLevelAttr groups (replaceTimeAttrs Fm fmt groups a) := by
  obtain ⟨key, v⟩ := a
  by_cases hl : key = levelKey ∧ groups = []
  · obtain ⟨rfl, rfl⟩ := hl
    cases v with
    | vLevel l =>
      cases hn : levelNames l with
      | none =>
        have h1 : replaceLevelAttr [] (levelKey, Value.vLevel l) = (levelKey, .vLevel l) := by
          simp [replaceLevelAttr, hn]
        rw [h1, rt_vLevel, h1]
      | some n =>
        have h1 : replaceLevelAttr [] (levelKey, Value.vLevel l) = (levelKey, .vStr n) := by
          simp [replaceLevelAttr, hn]
        rw [h1, rt_vStr, rt_vLevel, h1]
    | vInt i =>
      cases hn : levelNames i with
      | none =>
        have h1 : replaceLevelAttr [] (levelKey, Value.vInt i) = (levelKey, .vInt i) := by
          simp [replaceLevelAttr, hn]
        rw [h1, rt_vInt, h1]
      | some n =>
        have h1 : replaceLevelAttr [] (levelKey, Value.vInt i) = (levelKey, .vStr n) := by
          simp [replaceLevelAttr, hn]
        rw [h1, rt_vStr, rt_vInt, h1]
    | vStr s =>
      have h1 : replaceLevelAttr [] (levelKey, Value.vStr s) = (levelKey, .vStr s) := by
        simp [replaceLevelAttr]
      rw [h1, rt_vStr, h1]
    | vTime t =>
      have h1 : replaceLevelAttr [] (levelKey, Value.vTime t) = (levelKey, .vTime t) := by
        simp [replaceLevelAttr]
      have h2 : replaceLevelAttr [] (levelKey, Value.vStr (Fm fmt t))
          = (levelKey, .vStr (Fm fmt t)) := by
        simp [replaceLevelAttr]
      rw [h1, rt_vTime, h2]
    | vBool b =>
      have h1 : replaceLevelAttr [] (levelKey, Value.vBool b) = (levelKey, .vBool b) := by
        simp [replaceLevelAttr]
      rw [h1, rt_vBool, h1]
    | vGroup g =>
      have hnt : ¬(levelKey = timeKey ∧ ([] : List String) = []) := by
        simp [levelKey, timeKey]
      have h1 : replaceLevelAttr [] (levelKey, Value.vGroup g) = (levelKey, .vGroup g) := by
        simp [replaceLevelAttr]
      have h2 : replaceLevelAttr []
          (levelKey, Value.vGroup (g.map (replaceTimeAttrs Fm fmt ([] ++ [levelKey]))))
          = (levelKey, Value.vGroup (g.map (replaceTimeAttrs Fm fmt ([] ++ [levelKey])))) := by
        simp [replaceLevelAttr]
      rw [h1, rt_vGroup_rec hnt, h2]
    | vOther =>
      have h1 : replaceLevelAttr [] (levelKey, Value.vOther) = (levelKey, .vOther) := by
        simp [replaceLevelAttr]
      rw [h1, rt_vOther, h1]
  · obtain ⟨v', hv'⟩ := rt_fst Fm fmt groups key v
    rw [rl_not_top hl, hv', rl_not_top hl]

/-- Claim C6. For every attribute, group path and time template, the level
rewrite and the timestamp rewrite are each idempotent, and they commute
with each other (applying them in either order yields the same attribute),
as composed in `buildHandler`'s `ReplaceAttr` hook. -/
theorem rewrites_idempotent_and_orderIndependent (Fm : String → Int → String)
    (fmt : String) (groups : List String) (a : Attr) :
    replaceLevelAttr groups (replaceLevelAttr groups a) = replaceLevelAttr groups a
    ∧ replaceTimeAttrs Fm fmt groups (replaceTimeAttrs Fm fmt groups a)
        = replaceTimeAttrs Fm fmt groups a
    ∧ replaceTimeAttrs Fm fmt groups (replaceLevelAttr groups a)
        = replaceLevelAttr groups (replaceTimeAttrs Fm fmt groups a) := by
  refine ⟨rl_idem groups a, ?_, rt_rl_comm Fm fmt groups a⟩
  obtain ⟨key, v⟩ := a
  exact rt_idem Fm fmt v groups key

/-! ## Construction short-circuiting (C7) -/

lemma applyOpts_append_fail {pre : List ConfigOption} :
    ∀ {c0 c : Config} {o : ConfigOption} {rest : List ConfigOption} {e : String},
      applyOpts pre c0 = .ok c → o c = .error e →
      applyOpts (pre ++ o :: rest) c0 = .error e := by
  induction pre with
  | nil =>
    intro c0 c o rest e h1 h2
    simp only [applyOpts] at h1
    cases h1
    simp [applyOpts, h2]
  | cons p ps ih =>
    intro c0 c o rest e h1 h2
    simp only [applyOpts, List.cons_append] at h1 ⊢
    cases hp : p c0 with
    | error e' => rw [hp] at h1; exact absurd h1 (by simp)
    | ok c1 =>
      rw [hp] at h1
      exact ih h1 h2

/-- Claim C7. The writer option fails on a null writer with the descriptive
error, and whenever the first failing option in the supplied sequence
fails (all options before it succeeding), `NewLogger` returns that
option's error wrapped as `logger initialization failed: ...` — the
`.error` branch of the `Except` carries no `Logger` value, so no logger,
not even a partial one, is returned. -/
theorem newLogger_firstError_aborts :
    (∀ c : Config, WithWriter none c = .error "expected io.Writer, got nil")
    ∧ (∀ (Fm : String → Int → String) (Ps : String → String → Option Int)
        (opts pre : List ConfigOption) (o : ConfigOption) (rest : List ConfigOption)
        (c0 c : Config) (e : String),
        opts = pre ++ o :: rest →
        WithDefaults Fm Ps emptyConfig = .ok c0 →
        applyOpts pre c0 = .ok c →
        o c = .error e →
        NewLogger Fm Ps opts = .error ("logger initialization failed: " ++ e)) := by
  constructor
  · intro c; rfl
  · rintro Fm Ps opts pre o rest c0 c e rfl hd h1 h2
    unfold NewLogger
    simp only [hd, applyOpts_append_fail h1 h2]

/-- Witness for C7: a single `WithWriter nil` option aborts construction. -/
theorem newLogger_firstError_aborts_witness :
    WithWriter none emptyConfig = .error "expected io.Writer, got nil"
    ∧ NewLogger FmTriv PsTriv [WithWriter none]
        = .error ("logger initialization failed: " ++ "expected io.Writer, got nil") :=
  ⟨newLogger_firstError_aborts.1 emptyConfig,
   newLogger_firstError_aborts.2 FmTriv PsTriv [WithWriter none] [] (WithWriter none) []
     _ _ "expected io.Writer, got nil" rfl rfl rfl rfl⟩

/-! ## Context extraction (C8, C10) -/

/-- The contribution of one extraction key to a logging call, read off
src/core.go lines 28-45: nothing for an absent value, the attribute
itself for a `slog.Attr` value, a freshly keyed attribute for a raw value
under a string or `fmt.Stringer` key, nothing for any other key shape. -/
def ctxContrib (ctx : Ctx) (k : CtxKey) : Option LogArg :=
  match ctx k with
  | none => none
  | some (.attr a) => some (.attr a)
  | some (.raw v) =>
    match k with
    | .str s => some (.attr (s, v))
    | .stringer _ render => some (.attr (render, v))
    | .otherKey _ => none

lemma addContextData_eq (fields : List CtxKey) (ctx : Ctx) (args : List LogArg) :
    addContextData fields ctx args = args ++ fields.filterMap (ctxContrib ctx) := by
  induction fields generalizing args with
  | nil => simp [addContextData]
  | cons k ks ih =>
    simp only [addContextData, List.filterMap_cons]
    cases hc : ctx k with
    | none => simp [ctxContrib, hc, ih]
    | some cv =>
      cases cv with
      | attr a => simp [ctxContrib, hc, ih]
      | raw v =>
        cases k with
        | str s => simp [ctxContrib, hc, ih]
        | stringer id render => simp [ctxContrib, hc, ih]
        | otherKey id => simp [ctxContrib, hc, ih]

/-- Claim C8. For each registered extraction key on a logging call: an
absent value appends nothing; a value that is already a fully-formed
attribute pair is appended as-is; otherwise a raw value is appended under
the key itself when the key is a string, under its rendering when the key
exposes a string-rendering capability, and any other key shape is
silently skipped — `addContextData` is total, so no error is possible. -/
theorem addContextData_per_key (ctx : Ctx) (k : CtxKey) (args : List LogArg) :
    (ctx k = none → addContextData [k] ctx args = args)
    ∧ (∀ a, ctx k = some (.attr a) → addContextData [k] ctx args = args ++ [.attr a])
    ∧ (∀ s v, k = .str s → ctx k = some (.raw v) →
        addContextData [k] ctx args = args ++ [.attr (s, v)])
    ∧ (∀ id render v, k = .stringer id render → ctx k = some (.raw v) →
        addContextData [k] ctx args = args ++ [.attr (render, v)])
    ∧ (∀ id v, k = .otherKey id → ctx k = some (.raw v) →
        addContextData [k] ctx args = args) := by
  refine ⟨?_, ?_, ?_, ?_, ?_⟩
  · intro h; simp [addContextData, h]
  · intro a h; simp [addContextData, h]
  · rintro s v rfl h; simp [addContextData, h]
  · rintro id render v rfl h; simp [addContextData, h]
  · rintro id v rfl h; simp [addContextData, h]

/-- A concrete request-scoped store used by witnesses. -/
def ctxW : Ctx := fun k =>
  match k with
  | .str "user_id" => some (.raw (.vInt 123))
  | .str "ready" => some (.attr ("req", .vStr "abc"))
  | .stringer 0 _ => some (.raw (.vStr "r"))
  | .otherKey 7 => some (.raw (.vBool true))
  | _ => none

/-- Witness for C8 on concrete keys: a missing key, a pre-built attribute,
a string key, a stringer key, and an unsupported key shape. -/
theorem addContextData_per_key_witness :
    addContextData [.str "missing"] ctxW [] = []
    ∧ addContextData [.str "ready"] ctxW [] = [.attr ("req", .vStr "abc")]
    ∧ addContextData [.str "user_id"] ctxW [] = [.attr ("user_id", .vInt 123)]
    ∧ addContextData [.stringer 0 "request_id"] ctxW []
        = [.attr ("request_id", .vStr "r")]
    ∧ addContextData [.otherKey 7] ctxW [] = [] :=
  ⟨(addContextData_per_key ctxW (.str "missing") []).1 rfl,
   (addContextData_per_key ctxW (.str "ready") []).2.1 ("req", .vStr "abc") rfl,
   (addContextData_per_key ctxW (.str "user_id") []).2.2.1 "user_id" (.vInt 123) rfl rfl,
   (addContextData_per_key ctxW (.stringer 0 "request_id") []).2.2.2.1 0 "request_id"
     (.vStr "r") rfl rfl,
   (addContextData_per_key ctxW (.otherKey 7) []).2.2.2.2 7 (.vBool true) rfl rfl⟩

/-- Claim C10. `addContextData` returns the explicit arguments unchanged as
the initial segment, followed by the context-derived attributes in the
order the extraction keys were registered. -/
theorem addContextData_appends_after_args (fields : List CtxKey) (ctx : Ctx)
    (args : List LogArg) :
    addContextData fields ctx args = args ++ fields.filterMap (ctxContrib ctx) :=
  addContextData_eq fields ctx args

/-! ## The fatal method (C9) -/

/-- Claim C9. `Logger.Fatal` produces exactly the trace *log record at
`LevelFatal`, then process exit with status 1* — the exit strictly follows
the forwarding of the record; `LevelFatal` is the level named `fatal` and
is at least every level in the configurable level table, so the record
passes every configurable minimum-level threshold. -/
theorem fatal_logs_then_exits (logg : Logger) (ctx : Ctx) (msg : String)
    (args : List LogArg) :
    logg.Fatal ctx msg args
      = [Event.logged LevelFatal msg (addContextData logg.extraCtxFields ctx args),
         Event.exited 1]
    ∧ levelValues "fatal" = some LevelFatal
    ∧ (∀ s l, levelValues s = some l → l ≤ LevelFatal) := by
  refine ⟨rfl, rfl, ?_⟩
  intro s l h
  unfold levelValues LevelTrace LevelDebug LevelVerbose LevelInfo LevelWarn LevelError
    LevelFatal at h
  show l ≤ (16 : Int)
  split_ifs at h <;> simp_all <;> omega

/-- Witness for C9 on a concrete logger and context. -/
theorem fatal_logs_then_exits_witness :
    (Logger.mk none [CtxKey.str "user_id"]).Fatal ctxW "boom" []
      = [Event.logged LevelFatal "boom"
           (addContextData [CtxKey.str "user_id"] ctxW []),
         Event.exited 1]
    ∧ (4 : Int) ≤ LevelFatal :=
  ⟨(fatal_logs_then_exits (Logger.mk none [CtxKey.str "user_id"]) ctxW "boom" []).1,
   (fatal_logs_then_exits (Logger.mk none [CtxKey.str "user_id"]) ctxW "boom" []).2.2
     "warn" 4 (by decide)⟩

end Logkit
